import Mathlib

/-!
Verification of the track-selection and plan-construction engine of
`mkvstrip.py` (a single-file Python program that strips unwanted audio and
subtitle tracks from Matroska files and cleans up their metadata).

The Python source is shallowly embedded: pymediainfo track records become the
`Track` structure, the parsed CLI options become `Policy`, and each method of
`MKVFile` relevant to the claims becomes a pure Lean function over these
structures.  Fallible string operations (Python `str.index`, which raises
`ValueError`) are embedded with `Option`.  Python's stable `list.sort` is
embedded as `List.insertionSort` with the corresponding boolean key relation
(insertion sort is the stable sort).  Python `enumerate` is embedded as
`py_enumerate`, `itertools.product` as `py_product`, and Python slicing
(with negative indices) as `py_slice`.
-/

/--
One pymediainfo track record, restricted to the attributes the program reads
(`mkvstrip.py` lines 246-547).  `forced` embeds the source's string field via
the test `track.forced == "Yes"` (the only way the source consumes it, apart
from sorting `"Yes"/"No"` descending, which agrees with `Bool` descending).
`streamorder`, `track_id` and `stream_size` are integers per the data model;
optional string fields are `Option String` where the source tests truthiness.
-/
structure Track where
  streamorder : Nat
  track_id : Nat
  language : String
  codec_id : String
  forced : Bool
  title : Option String
  other_language : List String
  commercial_name : String
  stream_size : Option Nat
  duration_source : String
  framecount_source : String
  samplingcount_source : String
  attachments : Option String
deriving DecidableEq, Repr

/-- A track with every field at its neutral value, for building examples. -/
def baseTrack : Track :=
  { streamorder := 0
    track_id := 0
    language := ""
    codec_id := ""
    forced := false
    title := none
    other_language := []
    commercial_name := ""
    stream_size := none
    duration_source := "General_Duration"
    framecount_source := "General_Duration"
    samplingcount_source := "General_Duration"
    attachments := none }

instance : Inhabited Track := ⟨baseTrack⟩

/--
The parsed command-line options consumed by the selection engine
(`cli_args.language`, `cli_args.sub_language`, `cli_args.sub_forced`,
`cli_args.external_subtitles`).
-/
structure Policy where
  language : List String
  sub_language : List String
  sub_forced : Bool
  external_subtitles : Bool
deriving DecidableEq, Repr

/--
The `MKVFile` object after construction (lines 246-261): the five track
lists produced by the probe, plus the file path and its filename component.
-/
structure MKVFile where
  filename : String
  path : String
  general_tracks : List Track
  video_tracks : List Track
  audio_tracks : List Track
  subtitle_tracks : List Track
  menu_tracks : List Track
deriving DecidableEq, Repr

/-- The two track types `_filtered_tracks` accepts (lines 278-283). -/
inductive TrackType where
  | Audio : TrackType
  | Text : TrackType
deriving DecidableEq, Repr

/-- Which of the three lists of `_filtered_tracks` a track is appended to. -/
inductive Decision where
  | keep : Decision
  | remove : Decision
  | extract : Decision
deriving DecidableEq, Repr

/-- The language list `_filtered_tracks` selects for a track type (278-283). -/
def languages_to_keep (p : Policy) (tt : TrackType) : List String :=
  match tt with
  | .Audio => p.language
  | .Text => p.sub_language

/-- The track list `_filtered_tracks` iterates for a track type (278-283). -/
def tracks_of (f : MKVFile) (tt : TrackType) : List Track :=
  match tt with
  | .Audio => f.audio_tracks
  | .Text => f.subtitle_tracks

/--
The per-track branch of the loop body of `_filtered_tracks` (lines 290-313):
which list one track is appended to, as a function of the track and policy.
-/
def track_decision (p : Policy) (tt : TrackType) (t : Track) : Decision :=
  if t.language ∈ languages_to_keep p tt then
    match tt with
    | .Text =>
      if t.codec_id = "S_TEXT/UTF8" ∨ t.codec_id = "S_TEXT/ASCII" then
        if p.sub_forced then
          if t.forced then
            if p.external_subtitles then .extract else .keep
          else .remove
        else
          if p.external_subtitles then .extract else .keep
      else .remove
    | .Audio => .keep
  else .remove

/--
`MKVFile._filtered_tracks` (lines 263-314): the `(keep, remove, extract)`
triple.  The loop appends each track to exactly one list in iteration order,
which is the same as filtering the input three times by `track_decision`.
-/
def filtered_tracks (p : Policy) (f : MKVFile) (tt : TrackType) :
    List Track × List Track × List Track :=
  let tracks := tracks_of f tt
  (tracks.filter (fun t => decide (track_decision p tt t = Decision.keep)),
   tracks.filter (fun t => decide (track_decision p tt t = Decision.remove)),
   tracks.filter (fun t => decide (track_decision p tt t = Decision.extract)))

/-- `itertools.product` over two integer lists, in Python iteration order. -/
def py_product (xs ys : List Nat) : List (Nat × Nat) :=
  (xs.map (fun x => ys.map (fun y => (x, y)))).flatten

/--
One of the three misalignment loops of `remux_required` (lines 337-355):
walk the product pairs and stop at the first pair whose first component is
greater than its second, returning whether such a violation was found.
-/
def loop_violation : List (Nat × Nat) → Bool
  | [] => false
  | q :: rest => if q.1 > q.2 then true else loop_violation rest

/--
The misalignment computation of `remux_required` (lines 337-355) on the three
stream-order lists: the video-audio loop runs first, then the video-subtitle
and audio-subtitle loops each run only if the flag is still unset.
-/
def streams_misaligned_calc (sv sa ss : List Nat) : Bool :=
  let m1 := loop_violation (py_product sv sa)
  let m2 := if m1 then true else loop_violation (py_product sv ss)
  if m2 then true else loop_violation (py_product sa ss)

/--
The `streams_misaligned` flag as set by `remux_required` (lines 328-355):
the stream orders of all video, audio and subtitle tracks are collected and
the three pairwise loops are run.
-/
def streams_misaligned (f : MKVFile) : Bool :=
  streams_misaligned_calc
    (f.video_tracks.map (fun t => t.streamorder))
    (f.audio_tracks.map (fun t => t.streamorder))
    (f.subtitle_tracks.map (fun t => t.streamorder))

/--
`MKVFile.remux_required` (lines 316-361): true when any of the four
remove/extract lists is non-empty (Python truthiness of
`audio_to_remove or sub_to_remove or audio_to_extract or sub_to_extract`)
or the streams are misaligned.
-/
def remux_required (p : Policy) (f : MKVFile) : Bool :=
  let a := filtered_tracks p f .Audio
  let s := filtered_tracks p f .Text
  let has_something_to_remove :=
    !a.2.1.isEmpty || !s.2.1.isEmpty || !a.2.2.isEmpty || !s.2.2.isEmpty
  has_something_to_remove || streams_misaligned f

/-- The two per-file processing paths of `main` (lines 588-591). -/
inductive ProcessPath where
  | remux : ProcessPath
  | cleanup : ProcessPath
deriving DecidableEq, Repr

/--
The dispatch in `main` (lines 588-591): `remove_tracks` when
`remux_required` holds, else `cleanup`.
-/
def process_path (p : Policy) (f : MKVFile) : ProcessPath :=
  if remux_required p f then .remux else .cleanup

/--
Python tuple-key comparison `(x.stream_size is not None, x.stream_size)` used
by the audio keep-sort (line 406): a missing size compares below every
present size, and present sizes compare as integers.
-/
def size_key_lt : Option Nat → Option Nat → Bool
  | none, none => false
  | none, some _ => true
  | some _, none => false
  | some x, some y => decide (x < y)

/--
The stable-sort relation for `internal_keep.sort(key=..., reverse=True)` on
audio tracks (line 406): `a` may stay before `b` when its size key is not
smaller, i.e. descending stream size with unknown sizes last and ties kept
in original order.
-/
def audio_sort_le (a b : Track) : Bool :=
  !size_key_lt a.stream_size b.stream_size

/--
The stable-sort relation for `internal_keep.sort(key=lambda x: x.forced,
reverse=True)` on subtitle tracks (line 415): forced before unforced, ties
kept in original order (the source sorts the strings `"Yes"/"No"`
descending, which coincides with `Bool` descending).
-/
def text_sort_le (a b : Track) : Bool :=
  a.forced || !b.forced

/--
The `sorted_keep` construction of `remove_tracks` (lines 397-416): for each
policy language in order, collect the kept tracks of that language in their
original order, stable-sort them with the given relation (Python
`list.sort` is a stable sort, embedded as insertion sort), and concatenate.
-/
def sorted_keep (langs : List String) (keep : List Track)
    (le : Track → Track → Bool) : List Track :=
  (langs.map (fun lang =>
    List.insertionSort (fun a b => le a b = true)
      (keep.filter (fun t => t.language == lang)))).flatten

/-- The ordered audio keep list of `remove_tracks` (lines 400-407). -/
def sorted_keep_audio (p : Policy) (f : MKVFile) : List Track :=
  sorted_keep p.language (filtered_tracks p f .Audio).1 audio_sort_le

/-- The ordered subtitle keep list of `remove_tracks` (lines 409-416). -/
def sorted_keep_text (p : Policy) (f : MKVFile) : List Track :=
  sorted_keep p.sub_language (filtered_tracks p f .Text).1 text_sort_le

/-- Python `enumerate`, as used on `sorted_keep` (line 441). -/
def py_enumerate (n : Nat) : List Track → List (Nat × Track)
  | [] => []
  | x :: xs => (n, x) :: py_enumerate (n + 1) xs

/--
The `--default-track` argument pair emitted for the kept track at position
`count` (line 446): flag `"1"` for `count = 0`, `"0"` otherwise
(Python `"0" if count else "1"`).
-/
def default_track_entry (count : Nat) (t : Track) : List String :=
  ["--default-track", Nat.repr t.streamorder ++ ":" ++ (if count = 0 then "1" else "0")]

/-- All `--default-track` arguments for one sorted keep list (lines 441-446). -/
def default_track_args (l : List Track) : List String :=
  ((py_enumerate 0 l).map (fun it => default_track_entry it.1 it.2)).flatten

/--
The video part of `self.track_order` (line 392): the source calls
`self.track_order.extend(str(track.streamorder))`, and `list.extend` on a
string appends the string's characters one by one, so each video stream
order contributes its decimal digits as separate one-character entries.
-/
def video_track_order (f : MKVFile) : List String :=
  (f.video_tracks.map (fun t =>
    (Nat.repr t.streamorder).toList.map (fun c => String.mk [c]))).flatten

/-- The `keep_ids` list for the audio keep list (line 442). -/
def keep_ids_audio (p : Policy) (f : MKVFile) : List String :=
  (sorted_keep_audio p f).map (fun t => Nat.repr t.streamorder)

/-- The `keep_ids` list for the subtitle keep list (line 442). -/
def keep_ids_text (p : Policy) (f : MKVFile) : List String :=
  (sorted_keep_text p f).map (fun t => Nat.repr t.streamorder)

/--
The final `self.track_order` of `remove_tracks` (lines 392, 458, 461):
video entries first, then the audio keep ids, then the subtitle keep ids
(extending by an empty `keep_ids` list is a no-op, so the guards on lines
456-461 do not change the sequence).
-/
def track_order (p : Policy) (f : MKVFile) : List String :=
  video_track_order f ++ keep_ids_audio p f ++ keep_ids_text p f

/--
The `--track-order` argument string (line 473):
`"{1}{0}".format(",0:".join(self.track_order), "0:")`.
-/
def track_order_arg (p : Policy) (f : MKVFile) : String :=
  "0:" ++ String.intercalate ",0:" (track_order p f)

/-- Python `str.index` for a single character: `none` models `ValueError`. -/
def str_index (s : String) (c : Char) : Option Nat :=
  s.toList.findIdx? (fun x => x == c)

/-- Normalize one Python slice bound to an absolute index clamped to the list. -/
def py_bound (len : Nat) (i : Int) : Nat :=
  if i < 0 then (max 0 ((len : Int) + i)).toNat else min i.toNat len

/-- Python string slicing `s[start:stop]` with possibly negative bounds. -/
def py_slice (s : String) (start stop : Int) : String :=
  let cs := s.toList
  String.mk ((cs.drop (py_bound cs.length start)).take
    (py_bound cs.length stop - py_bound cs.length start))

/--
The container title derived from the filename, used by `remove_tracks`
(line 383) and `cleanup` (lines 510, 512):
`self.filename[:(self.filename.index("[")-1)]`; `none` models the
`ValueError` raised when the filename has no `"["`.
-/
def derived_title (filename : String) : Option String :=
  (str_index filename '[').map (fun i => py_slice filename 0 (Int.ofNat i - 1))

/-- The destination-filename tag chosen for one extracted subtitle track. -/
inductive SubTag where
  | forcedT : SubTag
  | hiT : SubTag
  | plainT : Nat → SubTag
deriving DecidableEq, Repr

/--
The filename suffix text of a tag (lines 426, 430, 434): `".forced"`,
`".hi"`, or the numeric suffix `"" if sub_counter == 0 else "." +
str(sub_counter)` of the plain branch.
-/
def tag_suffix : SubTag → String
  | .forcedT => ".forced"
  | .hiT => ".hi"
  | .plainT c =>
      (if c = 0 then "" else ".") ++ (if c = 0 then "" else Nat.repr c)

/-- Python `"sdh" in s.lower()` (case-insensitive substring test). -/
def contains_sdh (s : String) : Bool :=
  (s.toList.map Char.toLower).tails.any (fun t => ['s', 'd', 'h'].isPrefixOf t)

/--
Python `track.title and "sdh" in track.title.lower()` (lines 429, 453, 507):
false when the title is missing or empty, else the substring test.
-/
def title_has_sdh : Option String → Bool
  | none => false
  | some s => !s.isEmpty && contains_sdh s

/--
The tag-assignment loop over the subtitle extract list (lines 420-436),
carrying the `forced_sub`, `sdh_sub` and `sub_counter` state: the first
branch claims `.forced` for a forced track while `forced_sub` is unset, the
second claims `.hi` for an SDH-titled track while `sdh_sub` is unset, and
the final branch emits the numeric suffix and increments the counter.
-/
def assign_tags : List Track → Bool → Bool → Nat → List SubTag
  | [], _, _, _ => []
  | t :: rest, forced_sub, sdh_sub, sub_counter =>
    if t.forced && !forced_sub then
      .forcedT :: assign_tags rest true sdh_sub sub_counter
    else if title_has_sdh t.title && !sdh_sub then
      .hiT :: assign_tags rest forced_sub true sub_counter
    else
      .plainT sub_counter :: assign_tags rest forced_sub sdh_sub (sub_counter + 1)

/-- The tags assigned to the subtitle extract list, with all state initial. -/
def extract_tags (p : Policy) (f : MKVFile) : List SubTag :=
  assign_tags (filtered_tracks p f .Text).2.2 false false 0

/--
The destination filename of one extracted subtitle (lines 426, 430, 434):
`"{}{}{}.{}{}.srt".format(path[0:path.index("]")+1], "[edited]",
path[path.index("]"):-4], language, TAG)`; `none` models the `ValueError`
raised when the path has no `"]"`.
-/
def extract_dest (path lang : String) (tag : SubTag) : Option String :=
  (str_index path ']').map (fun i =>
    py_slice path 0 (Int.ofNat i + 1) ++ "[edited]"
      ++ py_slice path (Int.ofNat i) (-4)
      ++ "." ++ lang ++ tag_suffix tag ++ ".srt")

/--
The `mkvextract` track arguments built for the extract list (lines 423-436):
each entry is `str(streamorder) + ":" + destination`.
-/
def extract_entries (p : Policy) (f : MKVFile) : Option (List String) :=
  let extract := (filtered_tracks p f .Text).2.2
  (extract.zip (extract_tags p f)).mapM (fun tt =>
    (extract_dest f.path tt.1.language tt.2).map (fun d =>
      Nat.repr tt.1.streamorder ++ ":" ++ d))

/--
The edited-marker filename of `replace_file` (lines 178-180):
`org_file[:index("]")+1] + "[edited]" + org_file[index("]")+1:]`; `none`
models the `ValueError` raised when the name has no `"]"`.
-/
def edited_name (org_file : String) : Option String :=
  (str_index org_file ']').map (fun i =>
    py_slice org_file 0 (Int.ofNat i + 1) ++ "[edited]"
      ++ py_slice org_file (Int.ofNat i + 1) (Int.ofNat org_file.toList.length))

/-- The `mkvpropedit` binary name (source default, line 40). -/
def MKVPROPEDIT_DEFAULT : String := "mkvpropedit"

/-- Python truthiness of an optional string (`None` and `""` are falsy). -/
def py_truthy : Option String → Bool
  | none => false
  | some s => !s.isEmpty

/--
The string the subtitle title is compared against in `cleanup` (line 505):
`"{}{}".format(track.other_language[0], " [Forced]" if track.forced == "Yes"
else "")` - square brackets and no SDH part.
-/
def cleanup_sub_check_name (t : Track) : String :=
  t.other_language.headD "" ++ (if t.forced then " [Forced]" else "")

/--
The subtitle display name written by both `remove_tracks` (line 453) and
`cleanup` (line 507): `"{}{}{}".format(track.other_language[0], " (Forced)"
if forced else "", " (SDH)" if title contains "sdh" else "")`.
-/
def sub_display_name (t : Track) : String :=
  t.other_language.headD "" ++ (if t.forced then " (Forced)" else "")
    ++ (if title_has_sdh t.title then " (SDH)" else "")

/-- The `cleanup` edits for one video track (lines 491-497). -/
def cleanup_video_edits (t : Track) : List String :=
  (if py_truthy t.title then
    ["--edit", "track:" ++ Nat.repr t.track_id, "--delete", "name"]
  else [])
  ++ (if !t.language.isEmpty then
    ["--edit", "track:" ++ Nat.repr t.track_id, "--set", "language=und"]
  else [])

/-- The `cleanup` edits for one audio track (lines 499-502). -/
def cleanup_audio_edits (t : Track) : List String :=
  if t.title ≠ some t.commercial_name then
    ["--edit", "track:" ++ Nat.repr t.track_id, "--set",
      "name=" ++ t.commercial_name]
  else []

/-- The `cleanup` edits for one subtitle track (lines 504-507). -/
def cleanup_sub_edits (t : Track) : List String :=
  if t.title ≠ some (cleanup_sub_check_name t) then
    ["--edit", "track:" ++ Nat.repr t.track_id, "--set",
      "name=" ++ sub_display_name t]
  else []

/--
The `cleanup` edits for one general track (lines 509-517): the global-title
rewrite (compared against the derived title, whose computation raises when
the filename has no `"["`, modelled by `none`) and one `--delete-attachment`
per `" / "`-separated attachment name.
-/
def cleanup_general_edits (filename : String) (t : Track) : Option (List String) :=
  (derived_title filename).map (fun title =>
    (if t.title ≠ some title then
      ["--edit", "info", "--set", "title=" ++ title]
    else [])
    ++ (if py_truthy t.attachments then
      (((t.attachments.getD "").splitOn " / ").map (fun a =>
        ["--delete-attachment", "name:" ++ a])).flatten
    else []))

/--
The track-statistics test of `cleanup` (lines 524-532): true when some video
track has both duration and frame-count sources away from
`"General_Duration"`, or some audio track has both duration and
sampling-count sources away from it.
-/
def cleanup_track_statistics (f : MKVFile) : Bool :=
  f.video_tracks.any (fun t =>
    !(t.duration_source == "General_Duration")
      && !(t.framecount_source == "General_Duration"))
  || f.audio_tracks.any (fun t =>
    !(t.duration_source == "General_Duration")
      && !(t.samplingcount_source == "General_Duration"))

/--
The full `mkvpropedit` command assembled by `cleanup` (lines 486-536):
`[mkvpropedit, path]` followed by the video, audio, subtitle, general,
chapter and statistics edits in source order.  `none` models the
`ValueError` escaping from the general-track loop.
-/
def cleanup_command (f : MKVFile) : Option (List String) := do
  let generalEdits ← f.general_tracks.mapM (cleanup_general_edits f.filename)
  pure ([MKVPROPEDIT_DEFAULT, f.path]
    ++ (f.video_tracks.map cleanup_video_edits).flatten
    ++ (f.audio_tracks.map cleanup_audio_edits).flatten
    ++ (f.subtitle_tracks.map cleanup_sub_edits).flatten
    ++ generalEdits.flatten
    ++ (if f.menu_tracks.isEmpty then [] else ["-c", ""])
    ++ (if cleanup_track_statistics f then ["--delete-track-statistics-tags"] else []))

/--
Whether `cleanup` invokes the property-edit tool (line 539): only when the
assembled command has at least one edit beyond `[mkvpropedit, path]`.
-/
def cleanup_invokes_tool (f : MKVFile) : Option Bool :=
  (cleanup_command f).map (fun cmd => decide (cmd.length ≥ 3))

/-- The message of the exception raised by `remove_tracks` (line 484). -/
def REMUX_FAIL_MSG : String := "Remuxing failed, but the file on disk should be OK."

/--
Outcome of the tail of `remove_tracks` (lines 479-484) for one file, given
whether the external merge edit succeeded and whether the temporary output
file exists: on success the temporary file replaces the original; on failure
the temporary file is removed (when present), the original is untouched, and
an `Exception` is raised.
-/
structure RemuxFinish where
  replaced_original : Bool
  tmp_removed : Bool
  raised : Option String
deriving DecidableEq, Repr

/-- The tail of `remove_tracks` (lines 479-484) as a state transformer. -/
def remove_tracks_finish (merge_edit_ok : Bool) (tmp_exists : Bool) : RemuxFinish :=
  if merge_edit_ok then
    { replaced_original := true, tmp_removed := false, raised := none }
  else
    { replaced_original := false, tmp_removed := tmp_exists,
      raised := some REMUX_FAIL_MSG }

/--
The per-file loop of `main` (lines 582-591) over files taking the remux
path, with `edit_ok` giving the external merge tool's outcome per file.
Only `KeyboardInterrupt` is ever caught (line 43-52), so the `Exception`
raised by `remove_tracks` on a failed edit propagates and aborts the loop.
Returns the files whose processing completed and the escaped message.
-/
def main_loop (edit_ok : String → Bool) : List String → List String × Option String
  | [] => ([], none)
  | f :: rest =>
    let r := remove_tracks_finish (edit_ok f) true
    match r.raised with
    | some msg => ([], some msg)
    | none =>
      let res := main_loop edit_ok rest
      (f :: res.1, res.2)
/-- Whether a tag is the plain numeric-suffix branch of the loop. -/
def is_plain_tag : SubTag → Bool
  | .plainT _ => true
  | _ => false

/-! Concrete inputs used by witnesses, counterexamples and examples. -/

/-- An English audio track of stream size 5000000 (original order first). -/
def exAudio5 : Track :=
  { baseTrack with language := "eng", streamorder := 1, stream_size := some 5000000 }

/-- An English audio track of stream size 8000000 (original order second). -/
def exAudio8 : Track :=
  { baseTrack with language := "eng", streamorder := 2, stream_size := some 8000000 }

/-- A policy keeping English audio and subtitles, nothing special. -/
def exPolicy : Policy :=
  { language := ["eng"], sub_language := ["eng"],
    sub_forced := false, external_subtitles := false }

/-- A policy keeping English audio and subtitles, extracting subtitles. -/
def exPolicyExt : Policy :=
  { language := ["eng"], sub_language := ["eng"],
    sub_forced := false, external_subtitles := true }

/-- A file with the two English audio tracks in ascending-size order. -/
def exFileAudio : MKVFile :=
  { filename := "Movie [2020].mkv", path := "/m/Movie [2020].mkv",
    general_tracks := [], video_tracks := [], audio_tracks := [exAudio5, exAudio8],
    subtitle_tracks := [], menu_tracks := [] }

/-- A forced English text subtitle track. -/
def exSubForced : Track :=
  { baseTrack with
    language := "eng"
    codec_id := "S_TEXT/UTF8"
    forced := true
    streamorder := 3 }

/-- An English text subtitle track titled "SDH". -/
def exSubSdh : Track :=
  { baseTrack with
    language := "eng"
    codec_id := "S_TEXT/UTF8"
    title := some "SDH"
    streamorder := 4 }

/-- A plain English text subtitle track. -/
def exSubPlain : Track :=
  { baseTrack with language := "eng", codec_id := "S_TEXT/UTF8", streamorder := 5 }

/-- A file whose subtitle tracks are the forced, SDH and plain examples. -/
def exFileSubs : MKVFile :=
  { filename := "Movie [2020].mkv", path := "/m/Movie [2020].mkv",
    general_tracks := [], video_tracks := [], audio_tracks := [],
    subtitle_tracks := [exSubForced, exSubSdh, exSubPlain], menu_tracks := [] }

/-- A video track whose stream order has two decimal digits. -/
def exVideo10 : Track := { baseTrack with streamorder := 10 }

/-- An English audio track of stream order 2 (kept by `exPolicy`). -/
def exAudio2 : Track := { baseTrack with language := "eng", streamorder := 2 }

/-- A file with a two-digit video stream order and one kept audio track. -/
def exFileV10 : MKVFile :=
  { filename := "Movie [2020].mkv", path := "/m/Movie [2020].mkv",
    general_tracks := [], video_tracks := [exVideo10], audio_tracks := [exAudio2],
    subtitle_tracks := [], menu_tracks := [] }

/-- A video track whose language is already `"und"` and whose title is unset. -/
def exVideoUnd : Track := { baseTrack with language := "und" }

/-- A general track whose title equals the derived title of the example file. -/
def exGeneral : Track := { baseTrack with title := some "Movie" }

/--
A file meeting all of C6's premises (video title unset, video language
already the canonical `"und"`, container title equal to the derived title,
no attachments, chapters, audio or subtitles, container-derived timing).
-/
def exFileC6 : MKVFile :=
  { filename := "Movie [2020].mkv", path := "/m/Movie [2020].mkv",
    general_tracks := [exGeneral], video_tracks := [exVideoUnd],
    audio_tracks := [], subtitle_tracks := [], menu_tracks := [] }

/--
A forced English subtitle track whose title equals the computed display
name ("English (Forced)", the value `cleanup` would write on line 507).
-/
def exSubDisplay : Track :=
  { baseTrack with
    forced := true
    other_language := ["English"]
    title := some "English (Forced)"
    track_id := 1 }

/--
A file meeting C6's premises whose only non-canonical-looking feature is a
forced subtitle titled with the computed display name.
-/
def exFileC6b : MKVFile :=
  { filename := "Movie [2020].mkv", path := "/m/Movie [2020].mkv",
    general_tracks := [exGeneral], video_tracks := [],
    audio_tracks := [], subtitle_tracks := [exSubDisplay], menu_tracks := [] }

/-- A video track with language unset, as the amended C6 requires. -/
def exVideoClean : Track := { baseTrack with language := "" }

/-- A file that the amended C6 no-op condition accepts. -/
def exFileClean : MKVFile :=
  { filename := "Movie [2020].mkv", path := "/m/Movie [2020].mkv",
    general_tracks := [exGeneral], video_tracks := [exVideoClean],
    audio_tracks := [], subtitle_tracks := [], menu_tracks := [] }

theorem count_filter_ite (l : List Track) (q : Track → Bool) (t : Track) :
    (l.filter q).count t = if q t then l.count t else 0 := by
  induction l with
  | nil => simp
  | cons x xs ih =>
    by_cases hx : q x
    · by_cases hxt : x = t
      · subst hxt
        simp [List.filter_cons, hx, List.count_cons, ih]
      · simp [List.filter_cons, hx, ih, List.count_cons_of_ne (Ne.symm hxt)]
    · by_cases hxt : x = t
      · subst hxt
        simp [List.filter_cons, hx, List.count_cons, ih]
      · simp [List.filter_cons, hx, ih, List.count_cons_of_ne (Ne.symm hxt)]

theorem mem_filtered_decision {p : Policy} {f : MKVFile} {tt : TrackType}
    {d : Decision} {t : Track} :
    t ∈ (tracks_of f tt).filter (fun u => decide (track_decision p tt u = d)) ↔
      t ∈ tracks_of f tt ∧ track_decision p tt t = d := by
  simp [List.mem_filter]

/--
C1: `remux_required` is true iff the audio remove list, the subtitle remove
list, or either extract list is non-empty, or the streams are misaligned;
and `main` takes the cleanup path exactly when it is false.
-/
theorem c1_remux_required_iff (p : Policy) (f : MKVFile) :
    (remux_required p f = true ↔
      ((filtered_tracks p f .Audio).2.1 ≠ [] ∨ (filtered_tracks p f .Text).2.1 ≠ []
        ∨ (filtered_tracks p f .Audio).2.2 ≠ [] ∨ (filtered_tracks p f .Text).2.2 ≠ []
        ∨ streams_misaligned f = true))
    ∧ (remux_required p f = false ↔ process_path p f = ProcessPath.cleanup) := by
  constructor
  · simp only [remux_required, Bool.or_eq_true, Bool.not_eq_true',
      List.isEmpty_eq_false]
    tauto
  · cases h : remux_required p f <;> simp [process_path, h]

theorem c1_witness :
    remux_required exPolicyExt exFileSubs = true
    ∧ process_path exPolicy exFileAudio = ProcessPath.cleanup := by
  constructor
  · exact (c1_remux_required_iff exPolicyExt exFileSubs).1.mpr (by decide)
  · exact (c1_remux_required_iff exPolicy exFileAudio).2.mp (by decide)

/--
C2: for every policy, file, track type and track, the `_filtered_tracks`
partition is total (the three lists' multiplicities sum to the input's,
so every input track lands in exactly one list) and pairwise disjoint.
-/
theorem c2_partition_total_disjoint (p : Policy) (f : MKVFile) (tt : TrackType)
    (t : Track) :
    ((filtered_tracks p f tt).1.count t + (filtered_tracks p f tt).2.1.count t
      + (filtered_tracks p f tt).2.2.count t = (tracks_of f tt).count t)
    ∧ (filtered_tracks p f tt).1.Disjoint (filtered_tracks p f tt).2.1
    ∧ (filtered_tracks p f tt).1.Disjoint (filtered_tracks p f tt).2.2
    ∧ (filtered_tracks p f tt).2.1.Disjoint (filtered_tracks p f tt).2.2 := by
  refine ⟨?_, ?_, ?_, ?_⟩
  · simp only [filtered_tracks, count_filter_ite]
    rcases h : track_decision p tt t <;> simp [h]
  · intro a ha hb
    have h1 := (mem_filtered_decision.mp ha).2
    have h2 := (mem_filtered_decision.mp hb).2
    rw [h1] at h2
    exact absurd h2 (by decide)
  · intro a ha hb
    have h1 := (mem_filtered_decision.mp ha).2
    have h2 := (mem_filtered_decision.mp hb).2
    rw [h1] at h2
    exact absurd h2 (by decide)
  · intro a ha hb
    have h1 := (mem_filtered_decision.mp ha).2
    have h2 := (mem_filtered_decision.mp hb).2
    rw [h1] at h2
    exact absurd h2 (by decide)

theorem c2_witness :
    (filtered_tracks exPolicy exFileAudio .Audio).1.count exAudio5
      + (filtered_tracks exPolicy exFileAudio .Audio).2.1.count exAudio5
      + (filtered_tracks exPolicy exFileAudio .Audio).2.2.count exAudio5
      = (tracks_of exFileAudio .Audio).count exAudio5 :=
  (c2_partition_total_disjoint exPolicy exFileAudio .Audio exAudio5).1

/--
C3: for every subtitle track whose language is in the keep set, a non-text
codec (not UTF8/ASCII) forces removal; otherwise with `sub_forced` the track
is kept/extracted exactly when forced and removed otherwise; otherwise it is
kept/extracted unconditionally; kept-or-extracted resolves to the extract
list exactly when `external_subtitles` is set, else the keep list; and every
subtitle track whose language is not in the keep set is removed.
-/
theorem c3_subtitle_rule (p : Policy) (f : MKVFile) (t : Track)
    (ht : t ∈ f.subtitle_tracks) :
    (t.language ∈ p.sub_language →
      ((t.codec_id ≠ "S_TEXT/UTF8" ∧ t.codec_id ≠ "S_TEXT/ASCII") →
        t ∈ (filtered_tracks p f .Text).2.1)
      ∧ ((t.codec_id = "S_TEXT/UTF8" ∨ t.codec_id = "S_TEXT/ASCII") →
        (p.sub_forced = true →
          (t.forced = true →
            (p.external_subtitles = true → t ∈ (filtered_tracks p f .Text).2.2)
            ∧ (p.external_subtitles = false → t ∈ (filtered_tracks p f .Text).1))
          ∧ (t.forced = false → t ∈ (filtered_tracks p f .Text).2.1))
        ∧ (p.sub_forced = false →
          (p.external_subtitles = true → t ∈ (filtered_tracks p f .Text).2.2)
          ∧ (p.external_subtitles = false → t ∈ (filtered_tracks p f .Text).1))))
    ∧ (t.language ∉ p.sub_language → t ∈ (filtered_tracks p f .Text).2.1) := by
  have htt : t ∈ tracks_of f TrackType.Text := ht
  constructor
  · intro hl
    constructor
    · intro hc
      exact mem_filtered_decision.mpr
        ⟨htt, by simp [track_decision, languages_to_keep, hl, hc.1, hc.2]⟩
    · intro hc
      constructor
      · intro hsf
        constructor
        · intro hf
          constructor
          · intro he
            exact mem_filtered_decision.mpr ⟨htt, by
              rcases hc with h | h <;>
                simp [track_decision, languages_to_keep, hl, h, hsf, hf, he]⟩
          · intro he
            exact mem_filtered_decision.mpr ⟨htt, by
              rcases hc with h | h <;>
                simp [track_decision, languages_to_keep, hl, h, hsf, hf, he]⟩
        · intro hf
          exact mem_filtered_decision.mpr ⟨htt, by
            rcases hc with h | h <;>
              simp [track_decision, languages_to_keep, hl, h, hsf, hf]⟩
      · intro hsf
        constructor
        · intro he
          exact mem_filtered_decision.mpr ⟨htt, by
            rcases hc with h | h <;>
              simp [track_decision, languages_to_keep, hl, h, hsf, he]⟩
        · intro he
          exact mem_filtered_decision.mpr ⟨htt, by
            rcases hc with h | h <;>
              simp [track_decision, languages_to_keep, hl, h, hsf, he]⟩
  · intro hl
    exact mem_filtered_decision.mpr
      ⟨htt, by simp [track_decision, languages_to_keep, hl]⟩

theorem c3_witness :
    exSubForced ∈ (filtered_tracks exPolicyExt exFileSubs .Text).2.2
    ∧ exSubPlain ∈ (filtered_tracks exPolicy exFileSubs .Text).1 := by
  constructor
  · exact ((((c3_subtitle_rule exPolicyExt exFileSubs exSubForced (by decide)).1
      (by decide)).2 (by decide)).2 (by decide)).1 (by decide)
  · exact ((((c3_subtitle_rule exPolicy exFileSubs exSubPlain (by decide)).1
      (by decide)).2 (by decide)).2 (by decide)).2 (by decide)

theorem loop_violation_eq_any (l : List (Nat × Nat)) :
    loop_violation l = l.any (fun q => decide (q.1 > q.2)) := by
  induction l with
  | nil => rfl
  | cons q rest ih =>
    by_cases h : q.1 > q.2 <;> simp [loop_violation, h, ih]

theorem loop_violation_iff (xs ys : List Nat) :
    loop_violation (py_product xs ys) = true ↔ ∃ x ∈ xs, ∃ y ∈ ys, x > y := by
  rw [loop_violation_eq_any]
  simp only [List.any_eq_true, py_product, List.mem_flatten, List.mem_map]
  constructor
  · rintro ⟨q, ⟨l2, ⟨x, hx, rfl⟩, hq⟩, hgt⟩
    obtain ⟨y, hy, rfl⟩ := List.mem_map.mp hq
    exact ⟨x, hx, y, hy, by simpa using hgt⟩
  · rintro ⟨x, hx, y, hy, hgt⟩
    exact ⟨(x, y), ⟨ys.map (fun y2 => (x, y2)), ⟨x, hx, rfl⟩,
      List.mem_map.mpr ⟨y, hy, rfl⟩⟩, by simpa⟩

theorem streams_misaligned_calc_or (sv sa ss : List Nat) :
    streams_misaligned_calc sv sa ss
      = (loop_violation (py_product sv sa) || loop_violation (py_product sv ss)
          || loop_violation (py_product sa ss)) := by
  unfold streams_misaligned_calc
  cases loop_violation (py_product sv sa) <;>
    cases loop_violation (py_product sv ss) <;> simp

/--
C5: the misalignment flag is true iff some pair violates one of the three
ordered cross-type comparisons (video over audio, video over subtitle, audio
over subtitle); the short-circuiting loops compute exactly this disjunction;
video orders [0,1], audio [2,3], subtitle [5,4] yield false while audio
[3,4] against subtitle [2,6] yields true.
-/
theorem c5_misalignment (sv sa ss : List Nat) (f : MKVFile) :
    (streams_misaligned_calc sv sa ss = true ↔
      ((∃ v ∈ sv, ∃ a ∈ sa, v > a) ∨ (∃ v ∈ sv, ∃ s ∈ ss, v > s)
        ∨ (∃ a ∈ sa, ∃ s ∈ ss, a > s)))
    ∧ (streams_misaligned f = streams_misaligned_calc
        (f.video_tracks.map (fun t => t.streamorder))
        (f.audio_tracks.map (fun t => t.streamorder))
        (f.subtitle_tracks.map (fun t => t.streamorder)))
    ∧ streams_misaligned_calc [0, 1] [2, 3] [5, 4] = false
    ∧ streams_misaligned_calc [0, 1] [3, 4] [2, 6] = true := by
  refine ⟨?_, rfl, by decide, by decide⟩
  rw [streams_misaligned_calc_or]
  simp only [Bool.or_eq_true, loop_violation_iff]
  exact or_assoc

theorem audio_sort_le_total (a b : Track) :
    audio_sort_le a b = true ∨ audio_sort_le b a = true := by
  unfold audio_sort_le size_key_lt
  rcases a.stream_size with _ | x <;> rcases b.stream_size with _ | y <;>
    simp <;> omega

theorem audio_sort_le_trans (a b c : Track) (h1 : audio_sort_le a b = true)
    (h2 : audio_sort_le b c = true) : audio_sort_le a c = true := by
  unfold audio_sort_le size_key_lt at h1 h2 ⊢
  cases ha : a.stream_size <;> cases hb : b.stream_size <;>
    cases hc : c.stream_size <;> simp_all <;> omega

theorem text_sort_le_total (a b : Track) :
    text_sort_le a b = true ∨ text_sort_le b a = true := by
  unfold text_sort_le
  cases ha : a.forced <;> cases hb : b.forced <;> simp

theorem text_sort_le_trans (a b c : Track) (h1 : text_sort_le a b = true)
    (h2 : text_sort_le b c = true) : text_sort_le a c = true := by
  unfold text_sort_le at h1 h2 ⊢
  cases ha : a.forced <;> cases hb : b.forced <;> cases hc : c.forced <;>
    simp_all

theorem mem_sorted_keep_block {le : Track → Track → Bool} {keep : List Track}
    {lang : String} {t : Track}
    (h : t ∈ List.insertionSort (fun a b => le a b = true)
      (keep.filter (fun u => u.language == lang))) :
    t ∈ keep ∧ t.language = lang := by
  rw [List.mem_insertionSort] at h
  have hm := List.mem_filter.mp h
  exact ⟨hm.1, by simpa using hm.2⟩

theorem nodup_pairwise_indexOf (l : List String) (h : l.Nodup) :
    l.Pairwise (fun x y => l.indexOf x ≤ l.indexOf y) := by
  induction l with
  | nil => exact List.Pairwise.nil
  | cons c cs ih =>
    rw [List.nodup_cons] at h
    constructor
    · intro y hy
      rw [List.indexOf_cons_self]
      exact Nat.zero_le _
    · refine List.Pairwise.imp_of_mem ?_ (ih h.2)
      intro x y hx hy hxy
      have hxc : c ≠ x := by rintro rfl; exact h.1 hx
      have hyc : c ≠ y := by rintro rfl; exact h.1 hy
      rw [List.indexOf_cons_ne _ hxc, List.indexOf_cons_ne _ hyc]
      exact Nat.succ_le_succ hxy

theorem sorted_keep_pairwise_index (langs : List String) (keep : List Track)
    (le : Track → Track → Bool) (hnd : langs.Nodup) :
    (sorted_keep langs keep le).Pairwise
      (fun a b => langs.indexOf a.language ≤ langs.indexOf b.language) := by
  unfold sorted_keep
  rw [List.pairwise_flatten]
  constructor
  · intro l hl
    obtain ⟨lang, hlang, rfl⟩ := List.mem_map.mp hl
    refine List.pairwise_of_forall_mem_list ?_
    intro a ha b hb
    rw [(mem_sorted_keep_block ha).2, (mem_sorted_keep_block hb).2]
  · rw [List.pairwise_map]
    refine List.Pairwise.imp_of_mem ?_ (nodup_pairwise_indexOf langs hnd)
    intro la lb hla hlb hle x hx y hy
    rw [(mem_sorted_keep_block hx).2, (mem_sorted_keep_block hy).2]
    exact hle

theorem sorted_keep_pairwise_guard (langs : List String) (keep : List Track)
    (le : Track → Track → Bool) (hnd : langs.Nodup)
    (htot : ∀ a b : Track, le a b = true ∨ le b a = true)
    (htr : ∀ a b c : Track, le a b = true → le b c = true → le a c = true) :
    (sorted_keep langs keep le).Pairwise
      (fun a b => a.language = b.language → le a b = true) := by
  letI : IsTotal Track (fun a b => le a b = true) := ⟨htot⟩
  letI : IsTrans Track (fun a b => le a b = true) := ⟨htr⟩
  unfold sorted_keep
  rw [List.pairwise_flatten]
  constructor
  · intro l hl
    obtain ⟨lang, hlang, rfl⟩ := List.mem_map.mp hl
    refine List.Pairwise.imp ?_ (List.sorted_insertionSort (fun a b => le a b = true)
      (keep.filter (fun u => u.language == lang)))
    intro a b h hx
    exact h
  · rw [List.pairwise_map]
    refine List.Pairwise.imp_of_mem ?_ hnd
    intro la lb hla hlb hne x hx y hy hguard
    exact absurd (((mem_sorted_keep_block hx).2.symm.trans hguard).trans
      (mem_sorted_keep_block hy).2) hne

theorem mem_sorted_keep {langs : List String} {keep : List Track}
    {le : Track → Track → Bool} {t : Track}
    (h : t ∈ sorted_keep langs keep le) : t ∈ keep ∧ t.language ∈ langs := by
  unfold sorted_keep at h
  rw [List.mem_flatten] at h
  obtain ⟨blk, hblk, htb⟩ := h
  obtain ⟨lang, hlang, rfl⟩ := List.mem_map.mp hblk
  have hb := mem_sorted_keep_block htb
  exact ⟨hb.1, hb.2 ▸ hlang⟩

theorem sorted_keep_filter_ite (langs : List String) (keep : List Track)
    (le : Track → Track → Bool) (hnd : langs.Nodup) (lang : String) :
    (sorted_keep langs keep le).filter (fun t => t.language == lang)
      = if lang ∈ langs then
          List.insertionSort (fun a b => le a b = true)
            (keep.filter (fun t => t.language == lang))
        else [] := by
  induction langs with
  | nil => simp [sorted_keep]
  | cons la las ih =>
    rw [List.nodup_cons] at hnd
    have hstep : sorted_keep (la :: las) keep le
        = List.insertionSort (fun a b => le a b = true)
            (keep.filter (fun t => t.language == la)) ++ sorted_keep las keep le := by
      simp [sorted_keep]
    rw [hstep, List.filter_append]
    by_cases hla : lang = la
    · subst hla
      have h1 : (List.insertionSort (fun a b => le a b = true)
          (keep.filter (fun t => t.language == lang))).filter
            (fun t => t.language == lang)
          = List.insertionSort (fun a b => le a b = true)
            (keep.filter (fun t => t.language == lang)) := by
        rw [List.filter_eq_self]
        intro a ha
        simp [(mem_sorted_keep_block ha).2]
      have h2 : (sorted_keep las keep le).filter (fun t => t.language == lang) = [] := by
        rw [List.filter_eq_nil_iff]
        intro a ha
        have := (mem_sorted_keep ha).2
        simp only [beq_iff_eq]
        rintro rfl
        exact hnd.1 this
      rw [h1, h2]
      simp
    · have h1 : (List.insertionSort (fun a b => le a b = true)
          (keep.filter (fun t => t.language == la))).filter
            (fun t => t.language == lang) = [] := by
        rw [List.filter_eq_nil_iff]
        intro a ha
        have := (mem_sorted_keep_block ha).2
        simp only [beq_iff_eq]
        rintro rfl
        exact hla this
      rw [h1, ih hnd.2]
      simp [List.mem_cons, hla]

theorem keep_language_mem (p : Policy) (f : MKVFile) (tt : TrackType) :
    ∀ t ∈ (filtered_tracks p f tt).1, t.language ∈ languages_to_keep p tt := by
  intro t ht
  have hd := (mem_filtered_decision.mp ht).2
  by_contra hmem
  unfold track_decision at hd
  rw [if_neg hmem] at hd
  exact absurd hd (by decide)

theorem sorted_keep_filter_eq (langs : List String) (keep : List Track)
    (le : Track → Track → Bool) (hnd : langs.Nodup)
    (hsub : ∀ t ∈ keep, t.language ∈ langs) (lang : String) :
    (sorted_keep langs keep le).filter (fun t => t.language == lang)
      = List.insertionSort (fun a b => le a b = true)
          (keep.filter (fun t => t.language == lang)) := by
  rw [sorted_keep_filter_ite langs keep le hnd lang]
  by_cases hin : lang ∈ langs
  · rw [if_pos hin]
  · rw [if_neg hin]
    have : keep.filter (fun t => t.language == lang) = [] := by
      rw [List.filter_eq_nil_iff]
      intro a ha
      simp only [beq_iff_eq]
      rintro rfl
      exact hin (hsub a ha)
    rw [this]
    rfl

theorem sorted_keep_stability (langs : List String) (keep : List Track)
    (le : Track → Track → Bool) (a b : Track)
    (hlang : a.language = b.language) (hab : le a b = true)
    (hsl : List.Sublist [a, b] keep) (hmem : a.language ∈ langs) :
    List.Sublist [a, b] (sorted_keep langs keep le) := by
  have hfil : List.Sublist [a, b] (keep.filter (fun t => t.language == a.language)) := by
    have heq : ([a, b].filter (fun t => t.language == a.language)) = [a, b] := by
      simp [List.filter, hlang.symm]
    have hf := List.Sublist.filter (fun t => t.language == a.language) hsl
    rw [heq] at hf
    exact hf
  have hpair : List.Sublist [a, b]
      (List.insertionSort (fun x y => le x y = true)
        (keep.filter (fun t => t.language == a.language))) :=
    List.pair_sublist_insertionSort hab hfil
  exact hpair.trans
    (List.sublist_flatten_of_mem (List.mem_map.mpr ⟨a.language, hmem, rfl⟩))

theorem py_enumerate_pos_flags (l : List Track) (n : Nat) :
    ((py_enumerate (n + 1) l).map (fun it => default_track_entry it.1 it.2)).flatten
      = (l.map (fun u => ["--default-track", Nat.repr u.streamorder ++ ":0"])).flatten := by
  induction l generalizing n with
  | nil => rfl
  | cons t rest ih =>
    show (default_track_entry (n + 1) t
        :: (py_enumerate (n + 1 + 1) rest).map
          (fun it => default_track_entry it.1 it.2)).flatten = _
    rw [List.flatten_cons, ih (n + 1), List.map_cons, List.flatten_cons]
    have hentry : default_track_entry (n + 1) t
        = ["--default-track", Nat.repr t.streamorder ++ ":0"] := by
      simp only [default_track_entry, if_neg (Nat.succ_ne_zero n)]
      rw [String.append_assoc]
      rfl
    rw [hentry]

/--
C4: the ordered keep list of `remove_tracks` is grouped by language in the
exact order of the policy's language list (no earlier entry belongs to a
later policy language); each language's tracks form the stable sort of the
kept tracks of that language; within a language, audio tracks descend by
stream size with unknown sizes last (no earlier track has a strictly
smaller size key) and subtitle tracks put forced before unforced; tied
tracks keep their original keep-list order; the track at index 0 of each
type's sorted keep list gets default-track flag "1" and every later one
gets "0"; and the two English audio tracks of sizes 5000000 and 8000000
are ordered [8000000, 5000000].
-/
theorem c4_keep_order (p : Policy) (f : MKVFile)
    (hA : p.language.Nodup) (hT : p.sub_language.Nodup) :
    ((sorted_keep_audio p f).Pairwise (fun a b =>
      p.language.indexOf a.language ≤ p.language.indexOf b.language))
    ∧ ((sorted_keep_text p f).Pairwise (fun a b =>
      p.sub_language.indexOf a.language ≤ p.sub_language.indexOf b.language))
    ∧ (∀ lang, (sorted_keep_audio p f).filter (fun t => t.language == lang)
        = List.insertionSort (fun a b => audio_sort_le a b = true)
            ((filtered_tracks p f .Audio).1.filter (fun t => t.language == lang)))
    ∧ (∀ lang, (sorted_keep_text p f).filter (fun t => t.language == lang)
        = List.insertionSort (fun a b => text_sort_le a b = true)
            ((filtered_tracks p f .Text).1.filter (fun t => t.language == lang)))
    ∧ ((sorted_keep_audio p f).Pairwise (fun a b =>
        a.language = b.language → size_key_lt a.stream_size b.stream_size = false))
    ∧ ((sorted_keep_text p f).Pairwise (fun a b =>
        a.language = b.language → (a.forced || !b.forced) = true))
    ∧ (∀ a b : Track, a.language = b.language → audio_sort_le a b = true →
        audio_sort_le b a = true →
        List.Sublist [a, b] (filtered_tracks p f .Audio).1 →
        List.Sublist [a, b] (sorted_keep_audio p f))
    ∧ (∀ a b : Track, a.language = b.language → text_sort_le a b = true →
        text_sort_le b a = true →
        List.Sublist [a, b] (filtered_tracks p f .Text).1 →
        List.Sublist [a, b] (sorted_keep_text p f))
    ∧ (∀ t rest, sorted_keep_audio p f = t :: rest →
        default_track_args (sorted_keep_audio p f)
          = ["--default-track", Nat.repr t.streamorder ++ ":1"]
            ++ (rest.map (fun u =>
              ["--default-track", Nat.repr u.streamorder ++ ":0"])).flatten)
    ∧ (∀ t rest, sorted_keep_text p f = t :: rest →
        default_track_args (sorted_keep_text p f)
          = ["--default-track", Nat.repr t.streamorder ++ ":1"]
            ++ (rest.map (fun u =>
              ["--default-track", Nat.repr u.streamorder ++ ":0"])).flatten)
    ∧ sorted_keep_audio exPolicy exFileAudio = [exAudio8, exAudio5] := by
  have hsubA : ∀ t ∈ (filtered_tracks p f .Audio).1, t.language ∈ p.language :=
    keep_language_mem p f .Audio
  have hsubT : ∀ t ∈ (filtered_tracks p f .Text).1, t.language ∈ p.sub_language :=
    keep_language_mem p f .Text
  refine ⟨?_, ?_, ?_, ?_, ?_, ?_, ?_, ?_, ?_, ?_, by decide⟩
  · exact sorted_keep_pairwise_index p.language (filtered_tracks p f .Audio).1
      audio_sort_le hA
  · exact sorted_keep_pairwise_index p.sub_language (filtered_tracks p f .Text).1
      text_sort_le hT
  · intro lang
    exact sorted_keep_filter_eq p.language (filtered_tracks p f .Audio).1
      audio_sort_le hA hsubA lang
  · intro lang
    exact sorted_keep_filter_eq p.sub_language (filtered_tracks p f .Text).1
      text_sort_le hT hsubT lang
  · have h := sorted_keep_pairwise_guard p.language (filtered_tracks p f .Audio).1
      audio_sort_le hA audio_sort_le_total audio_sort_le_trans
    refine List.Pairwise.imp ?_ h
    intro a b hg hl
    have hle := hg hl
    unfold audio_sort_le at hle
    simpa using hle
  · have h := sorted_keep_pairwise_guard p.sub_language (filtered_tracks p f .Text).1
      text_sort_le hT text_sort_le_total text_sort_le_trans
    refine List.Pairwise.imp ?_ h
    intro a b hg hl
    exact hg hl
  · intro a b hlang h1 h2 hsl
    have ha : a ∈ (filtered_tracks p f .Audio).1 := hsl.subset (by simp)
    exact sorted_keep_stability p.language (filtered_tracks p f .Audio).1
      audio_sort_le a b hlang h1 hsl (hsubA a ha)
  · intro a b hlang h1 h2 hsl
    have ha : a ∈ (filtered_tracks p f .Text).1 := hsl.subset (by simp)
    exact sorted_keep_stability p.sub_language (filtered_tracks p f .Text).1
      text_sort_le a b hlang h1 hsl (hsubT a ha)
  · intro t rest heq
    show ((py_enumerate 0 (sorted_keep_audio p f)).map
      (fun it => default_track_entry it.1 it.2)).flatten = _
    rw [heq]
    rw [show py_enumerate 0 (t :: rest) = (0, t) :: py_enumerate (0 + 1) rest from rfl]
    rw [List.map_cons, List.flatten_cons, py_enumerate_pos_flags rest 0]
    have hentry : default_track_entry 0 t
        = ["--default-track", Nat.repr t.streamorder ++ ":1"] := by
      simp only [default_track_entry, if_pos]
      rw [String.append_assoc]
      rfl
    rw [hentry]
  · intro t rest heq
    show ((py_enumerate 0 (sorted_keep_text p f)).map
      (fun it => default_track_entry it.1 it.2)).flatten = _
    rw [heq]
    rw [show py_enumerate 0 (t :: rest) = (0, t) :: py_enumerate (0 + 1) rest from rfl]
    rw [List.map_cons, List.flatten_cons, py_enumerate_pos_flags rest 0]
    have hentry : default_track_entry 0 t
        = ["--default-track", Nat.repr t.streamorder ++ ":1"] := by
      simp only [default_track_entry, if_pos]
      rw [String.append_assoc]
      rfl
    rw [hentry]

theorem c4_witness :
    sorted_keep_audio exPolicy exFileAudio = [exAudio8, exAudio5] :=
  (c4_keep_order exPolicy exFileAudio (by decide) (by decide)).2.2.2.2.2.2.2.2.2.2

/--
C7 (code evaluation at the failing input): the video part of the track
order splits a two-digit stream order into its digits, because line 392
extends the list with the characters of `str(track.streamorder)`; a video
track of stream order 10 followed by a kept audio track of order 2 yields
the sequence ["1", "0", "2"] and the string "0:1,0:0,0:2" instead of the
claimed unmodified ["10", "2"] / "0:10,0:2".
-/
theorem c7_track_order_digit_split :
    video_track_order exFileV10 = ["1", "0"]
    ∧ track_order exPolicy exFileV10 = ["1", "0", "2"]
    ∧ track_order_arg exPolicy exFileV10 = "0:1,0:0,0:2"
    ∧ track_order exPolicy exFileV10 ≠ ["10", "2"] := by decide

/--
C6 counterexample: two files meeting every premise of the claim for which
`cleanup` still schedules edits.  First, with the video language already
the canonical "und", the language edit is scheduled anyway, because line
495 tests only that the field is set.  Second, with a forced subtitle
titled exactly the computed display name "English (Forced)", a title
rewrite is scheduled anyway, because line 505 compares the title against
"English [Forced]" (square brackets, no SDH part), not against the display
name it writes.  In both cases the plan is non-empty and the property-edit
tool is invoked.
-/
theorem c6_counterexample :
    ((∀ t ∈ exFileC6.video_tracks, t.title = none ∧ t.language = "und")
      ∧ (∀ t ∈ exFileC6.audio_tracks, t.title = some t.commercial_name)
      ∧ (∀ t ∈ exFileC6.subtitle_tracks, t.title = some (sub_display_name t))
      ∧ derived_title exFileC6.filename = some "Movie"
      ∧ (∀ t ∈ exFileC6.general_tracks, t.title = some "Movie" ∧ t.attachments = none)
      ∧ exFileC6.menu_tracks = []
      ∧ cleanup_track_statistics exFileC6 = false)
    ∧ cleanup_command exFileC6
        = some [MKVPROPEDIT_DEFAULT, exFileC6.path,
            "--edit", "track:0", "--set", "language=und"]
    ∧ cleanup_invokes_tool exFileC6 = some true
    ∧ ((∀ t ∈ exFileC6b.video_tracks, t.title = none ∧ t.language = "und")
      ∧ (∀ t ∈ exFileC6b.subtitle_tracks, t.title = some (sub_display_name t))
      ∧ derived_title exFileC6b.filename = some "Movie"
      ∧ (∀ t ∈ exFileC6b.general_tracks, t.title = some "Movie" ∧ t.attachments = none)
      ∧ exFileC6b.menu_tracks = []
      ∧ cleanup_track_statistics exFileC6b = false)
    ∧ cleanup_command exFileC6b
        = some [MKVPROPEDIT_DEFAULT, exFileC6b.path,
            "--edit", "track:1", "--set", "name=English (Forced)"]
    ∧ cleanup_invokes_tool exFileC6b = some true := by decide

theorem mapM_general_edits_nil (filename : String) (l : List Track) (T : String)
    (hd : derived_title filename = some T)
    (h : ∀ t ∈ l, t.title = some T ∧ py_truthy t.attachments = false) :
    ∃ L, l.mapM (cleanup_general_edits filename) = some L ∧ L.flatten = [] := by
  induction l with
  | nil => exact ⟨[], rfl, rfl⟩
  | cons t rest ih =>
    obtain ⟨L, hL, hf⟩ := ih (fun u hu => h u (List.mem_cons_of_mem _ hu))
    have ht := h t (List.mem_cons_self _ _)
    have hedit : cleanup_general_edits filename t = some [] := by
      unfold cleanup_general_edits
      rw [hd]
      simp [ht.1, ht.2]
    refine ⟨[] :: L, ?_, by simp [hf]⟩
    rw [List.mapM_cons, hedit, hL]
    rfl

/--
C6 amended: the cleanup pass schedules no edits (command stays
`[mkvpropedit, path]`, no tool invocation) for a file whose video titles
and video languages are unset (empty - not merely already "und", since the
code schedules the language edit whenever the field is non-empty), whose
audio titles equal the commercial names, whose subtitle titles equal the
code's comparison string (language display name plus " [Forced]" when
forced), whose container title equals the derived title, with no
attachments or chapters and container-derived timing statistics.
-/
theorem c6_cleanup_noop (f : MKVFile) (T : String)
    (hv : ∀ t ∈ f.video_tracks, py_truthy t.title = false ∧ t.language = "")
    (ha : ∀ t ∈ f.audio_tracks, t.title = some t.commercial_name)
    (hs : ∀ t ∈ f.subtitle_tracks, t.title = some (cleanup_sub_check_name t))
    (hd : derived_title f.filename = some T)
    (hg : ∀ t ∈ f.general_tracks, t.title = some T ∧ py_truthy t.attachments = false)
    (hm : f.menu_tracks = [])
    (hst : cleanup_track_statistics f = false) :
    cleanup_command f = some [MKVPROPEDIT_DEFAULT, f.path]
    ∧ cleanup_invokes_tool f = some false := by
  obtain ⟨L, hL, hf⟩ := mapM_general_edits_nil f.filename f.general_tracks T hd hg
  have hvid : (f.video_tracks.map cleanup_video_edits).flatten = [] := by
    rw [List.flatten_eq_nil_iff]
    intro l hl
    obtain ⟨t, ht, rfl⟩ := List.mem_map.mp hl
    have hp := hv t ht
    simp [cleanup_video_edits, hp.1, hp.2]
    decide
  have haud : (f.audio_tracks.map cleanup_audio_edits).flatten = [] := by
    rw [List.flatten_eq_nil_iff]
    intro l hl
    obtain ⟨t, ht, rfl⟩ := List.mem_map.mp hl
    simp [cleanup_audio_edits, ha t ht]
  have hsub : (f.subtitle_tracks.map cleanup_sub_edits).flatten = [] := by
    rw [List.flatten_eq_nil_iff]
    intro l hl
    obtain ⟨t, ht, rfl⟩ := List.mem_map.mp hl
    simp [cleanup_sub_edits, hs t ht]
  have hcmd : cleanup_command f = some [MKVPROPEDIT_DEFAULT, f.path] := by
    unfold cleanup_command
    rw [hL]
    simp [hvid, haud, hsub, hf, hm, hst]
  refine ⟨hcmd, ?_⟩
  unfold cleanup_invokes_tool
  rw [hcmd]
  rfl

theorem c6_witness :
    cleanup_command exFileClean = some [MKVPROPEDIT_DEFAULT, exFileClean.path]
    ∧ cleanup_invokes_tool exFileClean = some false :=
  c6_cleanup_noop exFileClean "Movie" (by decide) (by decide) (by decide)
    (by decide) (by decide) (by decide) (by decide)

theorem forcedT_not_mem_assign (l : List Track) (ss : Bool) (c : Nat) :
    SubTag.forcedT ∉ assign_tags l true ss c := by
  induction l generalizing ss c with
  | nil => simp [assign_tags]
  | cons t rest ih =>
    unfold assign_tags
    rw [if_neg (by simp)]
    by_cases h2 : (title_has_sdh t.title && !ss) = true
    · rw [if_pos h2]
      simp [ih]
    · rw [if_neg h2]
      simp [ih]

theorem hiT_not_mem_assign (l : List Track) (fs : Bool) (c : Nat) :
    SubTag.hiT ∉ assign_tags l fs true c := by
  induction l generalizing fs c with
  | nil => simp [assign_tags]
  | cons t rest ih =>
    unfold assign_tags
    by_cases h1 : (t.forced && !fs) = true
    · rw [if_pos h1]
      simp [ih]
    · rw [if_neg h1, if_neg (by simp)]
      simp [ih]

theorem count_forcedT_le_one (l : List Track) (ss : Bool) (c : Nat) :
    (assign_tags l false ss c).count SubTag.forcedT ≤ 1 := by
  induction l generalizing ss c with
  | nil => simp [assign_tags]
  | cons t rest ih =>
    unfold assign_tags
    by_cases h1 : (t.forced && !false) = true
    · rw [if_pos h1]
      have hz := List.count_eq_zero.mpr (forcedT_not_mem_assign rest ss c)
      simp [List.count_cons, hz]
    · rw [if_neg h1]
      by_cases h2 : (title_has_sdh t.title && !ss) = true
      · rw [if_pos h2]
        simpa [List.count_cons] using ih true c
      · rw [if_neg h2]
        simpa [List.count_cons] using ih ss (c + 1)

theorem count_hiT_le_one (l : List Track) (fs : Bool) (c : Nat) :
    (assign_tags l fs false c).count SubTag.hiT ≤ 1 := by
  induction l generalizing fs c with
  | nil => simp [assign_tags]
  | cons t rest ih =>
    unfold assign_tags
    by_cases h1 : (t.forced && !fs) = true
    · rw [if_pos h1]
      simpa [List.count_cons] using ih true c
    · rw [if_neg h1]
      by_cases h2 : (title_has_sdh t.title && !false) = true
      · rw [if_pos h2]
        have hz := List.count_eq_zero.mpr (hiT_not_mem_assign rest fs c)
        simp [List.count_cons, hz]
      · rw [if_neg h2]
        simpa [List.count_cons] using ih fs (c + 1)

theorem assign_tags_forcedT_iff (l : List Track) (ss : Bool) (c : Nat) (i : Nat) :
    (assign_tags l false ss c)[i]? = some SubTag.forcedT ↔
      (∃ t, l[i]? = some t ∧ t.forced = true
        ∧ ∀ j, j < i → ∀ u, l[j]? = some u → u.forced = false) := by
  induction l generalizing ss c i with
  | nil => simp [assign_tags]
  | cons t rest ih =>
    unfold assign_tags
    by_cases h1 : (t.forced && !false) = true
    · rw [if_pos h1]
      have htf : t.forced = true := by simpa using h1
      cases i with
      | zero =>
        refine iff_of_true (by simp)
          ⟨t, by simp, htf, fun j hj u hu => absurd hj (Nat.not_lt_zero j)⟩
      | succ i =>
        refine iff_of_false ?_ ?_
        · rw [List.getElem?_cons_succ]
          intro hsome
          exact forcedT_not_mem_assign rest ss c (List.getElem?_mem hsome)
        · rintro ⟨u, hu, huf, hall⟩
          have h0 := hall 0 (Nat.succ_pos i) t (by simp)
          rw [htf] at h0
          exact absurd h0 (by decide)
    · rw [if_neg h1]
      have htf : t.forced = false := by
        cases hb : t.forced
        · rfl
        · exact absurd (by simp [hb]) h1
      have hshift : ∀ i2 : Nat, (∃ u, rest[i2]? = some u ∧ u.forced = true
            ∧ ∀ j, j < i2 → ∀ w, rest[j]? = some w → w.forced = false) ↔
          (∃ u, (t :: rest)[i2 + 1]? = some u ∧ u.forced = true
            ∧ ∀ j, j < i2 + 1 → ∀ w, (t :: rest)[j]? = some w → w.forced = false)
          := by
        intro i2
        constructor
        · rintro ⟨u, hu, huf, hall⟩
          refine ⟨u, by simpa using hu, huf, ?_⟩
          intro j hj w hw
          cases j with
          | zero =>
            have hwt : t = w := by simpa using hw
            rw [← hwt]
            exact htf
          | succ j =>
            exact hall j (Nat.lt_of_succ_lt_succ hj) w (by simpa using hw)
        · rintro ⟨u, hu, huf, hall⟩
          exact ⟨u, by simpa using hu, huf, fun j hj w hw =>
            hall (j + 1) (Nat.succ_lt_succ hj) w (by simpa using hw)⟩
      cases i with
      | zero =>
        refine iff_of_false ?_ ?_
        · by_cases h2 : (title_has_sdh t.title && !ss) = true
          · rw [if_pos h2]
            simp
          · rw [if_neg h2]
            simp
        · rintro ⟨u, hu, huf, hall⟩
          have hut : t = u := by simpa using hu
          rw [← hut, htf] at huf
          exact absurd huf (by decide)
      | succ i =>
        by_cases h2 : (title_has_sdh t.title && !ss) = true
        · rw [if_pos h2, List.getElem?_cons_succ]
          exact (ih true c i).trans (hshift i)
        · rw [if_neg h2, List.getElem?_cons_succ]
          exact (ih ss (c + 1) i).trans (hshift i)

theorem assign_tags_hiT_iff (l : List Track) (fs : Bool) (c : Nat) (i : Nat) :
    (assign_tags l fs false c)[i]? = some SubTag.hiT ↔
      (∃ t, l[i]? = some t ∧ title_has_sdh t.title = true
        ∧ (assign_tags l fs false c)[i]? ≠ some SubTag.forcedT
        ∧ ∀ j, j < i → (assign_tags l fs false c)[j]? ≠ some SubTag.hiT) := by
  induction l generalizing fs c i with
  | nil => simp [assign_tags]
  | cons t rest ih =>
    unfold assign_tags
    by_cases h1 : (t.forced && !fs) = true
    · rw [if_pos h1]
      cases i with
      | zero =>
        refine iff_of_false (by simp) ?_
        rintro ⟨u, hu, hsdh, hne, hall⟩
        exact hne (by simp)
      | succ i =>
        rw [List.getElem?_cons_succ]
        constructor
        · intro h
          obtain ⟨u, hu, hsdh, hne, hall⟩ := (ih true c i).mp h
          refine ⟨u, by simpa using hu, hsdh, hne, ?_⟩
          intro j hj
          cases j with
          | zero => simp
          | succ j =>
            rw [List.getElem?_cons_succ]
            exact hall j (Nat.lt_of_succ_lt_succ hj)
        · rintro ⟨u, hu, hsdh, hne, hall⟩
          refine (ih true c i).mpr ⟨u, by simpa using hu, hsdh, hne, ?_⟩
          intro j hj
          have hj2 := hall (j + 1) (Nat.succ_lt_succ hj)
          rw [List.getElem?_cons_succ] at hj2
          exact hj2
    · rw [if_neg h1]
      by_cases h2 : (title_has_sdh t.title && !false) = true
      · rw [if_pos h2]
        have hsdh : title_has_sdh t.title = true := by simpa using h2
        cases i with
        | zero =>
          exact iff_of_true (by simp) ⟨t, by simp, hsdh, by simp,
            fun j hj => absurd hj (Nat.not_lt_zero j)⟩
        | succ i =>
          refine iff_of_false ?_ ?_
          · rw [List.getElem?_cons_succ]
            intro hsome
            exact hiT_not_mem_assign rest fs c (List.getElem?_mem hsome)
          · rintro ⟨u, hu, hsdh2, hne, hall⟩
            exact hall 0 (Nat.succ_pos i) (by simp)
      · rw [if_neg h2]
        have hnsdh : title_has_sdh t.title = false := by
          cases hb : title_has_sdh t.title
          · rfl
          · exact absurd (by simp [hb]) h2
        cases i with
        | zero =>
          refine iff_of_false (by simp) ?_
          rintro ⟨u, hu, hsdh2, hne, hall⟩
          have hut : t = u := by simpa using hu
          rw [← hut, hnsdh] at hsdh2
          exact absurd hsdh2 (by decide)
        | succ i =>
          rw [List.getElem?_cons_succ]
          constructor
          · intro h
            obtain ⟨u, hu, hsdh2, hne, hall⟩ := (ih fs (c + 1) i).mp h
            refine ⟨u, by simpa using hu, hsdh2, hne, ?_⟩
            intro j hj
            cases j with
            | zero => simp
            | succ j =>
              rw [List.getElem?_cons_succ]
              exact hall j (Nat.lt_of_succ_lt_succ hj)
          · rintro ⟨u, hu, hsdh2, hne, hall⟩
            refine (ih fs (c + 1) i).mpr ⟨u, by simpa using hu, hsdh2, hne, ?_⟩
            intro j hj
            have hj2 := hall (j + 1) (Nat.succ_lt_succ hj)
            rw [List.getElem?_cons_succ] at hj2
            exact hj2

theorem assign_tags_plainT_counter (l : List Track) (fs ss : Bool)
    (c i n : Nat)
    (h : (assign_tags l fs ss c)[i]? = some (SubTag.plainT n)) :
    n = c + ((assign_tags l fs ss c).take i).countP is_plain_tag := by
  induction l generalizing fs ss c i n with
  | nil => simp [assign_tags] at h
  | cons t rest ih =>
    unfold assign_tags at h ⊢
    by_cases h1 : (t.forced && !fs) = true
    · rw [if_pos h1] at h ⊢
      cases i with
      | zero => simp at h
      | succ i =>
        rw [List.getElem?_cons_succ] at h
        rw [List.take_succ_cons, List.countP_cons]
        have hrec := ih true ss c i n h
        simp only [is_plain_tag, if_neg]
        simp [is_plain_tag]
        omega
    · rw [if_neg h1] at h ⊢
      by_cases h2 : (title_has_sdh t.title && !ss) = true
      · rw [if_pos h2] at h ⊢
        cases i with
        | zero => simp at h
        | succ i =>
          rw [List.getElem?_cons_succ] at h
          rw [List.take_succ_cons, List.countP_cons]
          have hrec := ih fs true c i n h
          simp [is_plain_tag]
          omega
      · rw [if_neg h2] at h ⊢
        cases i with
        | zero =>
          have hcn : SubTag.plainT c = SubTag.plainT n := by simpa using h
          have : c = n := by
            cases hcn
            rfl
          simp [this]
        | succ i =>
          rw [List.getElem?_cons_succ] at h
          rw [List.take_succ_cons, List.countP_cons]
          have hrec := ih fs ss (c + 1) i n h
          simp [is_plain_tag]
          omega

/--
C8: destination tags over the subtitle extract list are first-match-wins in
iteration order: `.forced` goes to the first forced subtitle and is claimed
at most once; `.hi` goes to the first not-yet-tagged subtitle whose title
contains "sdh" (case-insensitive) and is claimed at most once; every other
subtitle gets the plain tag whose numeric counter equals the number of
earlier plain-tagged subtitles, rendering as no suffix for counter 0 and
".1", ".2", ... afterwards; the forced/SDH-titled/plain example yields
`.forced`, `.hi` and the empty suffix.
-/
theorem c8_extract_tagging (p : Policy) (f : MKVFile) :
    ((extract_tags p f).count SubTag.forcedT ≤ 1)
    ∧ ((extract_tags p f).count SubTag.hiT ≤ 1)
    ∧ (∀ i : Nat, (extract_tags p f)[i]? = some SubTag.forcedT ↔
        (∃ t : Track, ((filtered_tracks p f .Text).2.2)[i]? = some t
          ∧ t.forced = true
          ∧ ∀ j : Nat, j < i → ∀ u : Track,
            ((filtered_tracks p f .Text).2.2)[j]? = some u → u.forced = false))
    ∧ (∀ i : Nat, (extract_tags p f)[i]? = some SubTag.hiT ↔
        (∃ t : Track, ((filtered_tracks p f .Text).2.2)[i]? = some t
          ∧ title_has_sdh t.title = true
          ∧ (extract_tags p f)[i]? ≠ some SubTag.forcedT
          ∧ ∀ j : Nat, j < i → (extract_tags p f)[j]? ≠ some SubTag.hiT))
    ∧ (∀ i n : Nat, (extract_tags p f)[i]? = some (SubTag.plainT n) →
        n = ((extract_tags p f).take i).countP is_plain_tag)
    ∧ tag_suffix (SubTag.plainT 0) = ""
    ∧ (∀ n, n ≠ 0 → tag_suffix (SubTag.plainT n) = "." ++ Nat.repr n)
    ∧ extract_tags exPolicyExt exFileSubs
        = [SubTag.forcedT, SubTag.hiT, SubTag.plainT 0]
    ∧ (extract_tags exPolicyExt exFileSubs).map tag_suffix
        = [".forced", ".hi", ""] := by
  refine ⟨count_forcedT_le_one _ _ _, count_hiT_le_one _ _ _,
    fun i => assign_tags_forcedT_iff _ _ _ _,
    fun i => assign_tags_hiT_iff _ _ _ _,
    fun i n h => by simpa using assign_tags_plainT_counter _ _ _ _ _ _ h,
    rfl, ?_, by decide, by decide⟩
  intro n hn
  simp [tag_suffix, hn]

theorem c8_witness :
    (extract_tags exPolicyExt exFileSubs).count SubTag.forcedT ≤ 1
    ∧ (extract_tags exPolicyExt exFileSubs).count SubTag.hiT ≤ 1 :=
  ⟨(c8_extract_tagging exPolicyExt exFileSubs).1,
    (c8_extract_tagging exPolicyExt exFileSubs).2.1⟩

/--
C9 counterexample: with two files on the remux path where the external
merge edit fails on the first and would succeed on the second, the
`Exception` raised by `remove_tracks` (line 484) escapes the uncaught loop
in `main`, so no file completes and the second file is never processed -
refuting the claim that a per-file failure never terminates processing of
the remaining files.
-/
theorem c9_counterexample :
    main_loop (fun s => s != "a.mkv") ["a.mkv", "b.mkv"]
      = ([], some REMUX_FAIL_MSG)
    ∧ "b.mkv" ∉ (main_loop (fun s => s != "a.mkv") ["a.mkv", "b.mkv"]).1 := by
  constructor
  · rfl
  · intro hmem
    rw [show (main_loop (fun s => s != "a.mkv") ["a.mkv", "b.mkv"]).1
        = [] from rfl] at hmem
    exact absurd hmem (List.not_mem_nil _)

/--
C9 amended: when the external merge edit fails during remux of a file, the
original file is left in its pre-edit state (not replaced) and the
temporary output is discarded, but the raised exception escapes `main`'s
loop: the run stops with the failure message and no further file -
including every remaining file in the list - completes processing.
-/
theorem c9_failure_behavior (edit_ok : String → Bool) (s : String)
    (rest : List String) (h : edit_ok s = false) :
    (remove_tracks_finish (edit_ok s) true).replaced_original = false
    ∧ (remove_tracks_finish (edit_ok s) true).tmp_removed = true
    ∧ main_loop edit_ok (s :: rest) = ([], some REMUX_FAIL_MSG) := by
  refine ⟨?_, ?_, ?_⟩
  · rw [h]
    rfl
  · rw [h]
    rfl
  · unfold main_loop
    rw [h]
    rfl

theorem c9_witness :
    (remove_tracks_finish ((fun _ => false) "a.mkv") true).replaced_original = false
    ∧ (remove_tracks_finish ((fun _ => false) "a.mkv") true).tmp_removed = true
    ∧ main_loop (fun _ => false) ["a.mkv", "b.mkv"] = ([], some REMUX_FAIL_MSG) :=
  c9_failure_behavior (fun _ => false) "a.mkv" ["b.mkv"] rfl

theorem str_index_none_iff (s : String) (ch : Char) :
    str_index s ch = none ↔ ch ∉ s.toList := by
  unfold str_index
  rw [List.findIdx?_eq_none_iff]
  constructor
  · intro h hmem
    have := h ch hmem
    simp at this
  · intro h x hx
    by_cases heq : x = ch
    · exact absurd (heq ▸ hx) h
    · simp [heq]

theorem str_index_isSome (s : String) (ch : Char) (h : ch ∈ s.toList) :
    (str_index s ch).isSome = true := by
  unfold str_index
  rw [List.findIdx?_isSome]
  exact List.any_eq_true.mpr ⟨ch, h, by simp⟩

/--
C10: a bracketed tag in the name is an unstated precondition: without "["
in the filename the title derivation used by `remove_tracks` (line 383) and
`cleanup` (lines 510, 512) raises `ValueError` (embedded as `none`, and the
whole cleanup command construction raises when a general track exists);
without "]" in the path the extraction-filename derivation (lines 426-434)
and `replace_file`'s edited-name derivation (lines 178-180) likewise raise;
with the bracket present these derivations always succeed.
-/
theorem c10_bracket_precondition :
    (∀ s : String, '[' ∉ s.toList → derived_title s = none)
    ∧ (∀ s : String, '[' ∈ s.toList → (derived_title s).isSome = true)
    ∧ (∀ f : MKVFile, f.general_tracks ≠ [] → '[' ∉ f.filename.toList →
        cleanup_command f = none)
    ∧ (∀ s lang : String, ∀ tag : SubTag, ']' ∉ s.toList →
        extract_dest s lang tag = none)
    ∧ (∀ s lang : String, ∀ tag : SubTag, ']' ∈ s.toList →
        (extract_dest s lang tag).isSome = true)
    ∧ (∀ s : String, ']' ∉ s.toList → edited_name s = none)
    ∧ (∀ s : String, ']' ∈ s.toList → (edited_name s).isSome = true) := by
  have hnone : ∀ (s : String) (ch : Char), ch ∉ s.toList → str_index s ch = none :=
    fun s ch h => (str_index_none_iff s ch).mpr h
  refine ⟨?_, ?_, ?_, ?_, ?_, ?_, ?_⟩
  · intro s h
    unfold derived_title
    rw [hnone s '[' h]
    rfl
  · intro s h
    unfold derived_title
    have hs := str_index_isSome s '[' h
    cases hix : str_index s '[' with
    | none => rw [hix] at hs; exact absurd hs (by decide)
    | some i => rfl
  · intro f hg hbr
    have hd : cleanup_general_edits f.filename (f.general_tracks.headD baseTrack)
        = none := by
      unfold cleanup_general_edits derived_title
      rw [hnone f.filename '[' hbr]
      rfl
    cases hG : f.general_tracks with
    | nil => exact absurd hG hg
    | cons g gs =>
      unfold cleanup_command
      rw [hG]
      rw [hG] at hd
      simp only [List.headD_cons] at hd
      rw [List.mapM_cons, hd]
      rfl
  · intro s lang tag h
    unfold extract_dest
    rw [hnone s ']' h]
    rfl
  · intro s lang tag h
    unfold extract_dest
    have hs := str_index_isSome s ']' h
    cases hix : str_index s ']' with
    | none => rw [hix] at hs; exact absurd hs (by decide)
    | some i => rfl
  · intro s h
    unfold edited_name
    rw [hnone s ']' h]
    rfl
  · intro s h
    unfold edited_name
    have hs := str_index_isSome s ']' h
    cases hix : str_index s ']' with
    | none => rw [hix] at hs; exact absurd hs (by decide)
    | some i => rfl

theorem c10_witness :
    derived_title "Movie.mkv" = none
    ∧ (derived_title "Movie [2020].mkv").isSome = true
    ∧ extract_dest "Movie.mkv" "eng" SubTag.forcedT = none
    ∧ (extract_dest "/m/Movie [2020].mkv" "eng" SubTag.forcedT).isSome = true
    ∧ edited_name "Movie.mkv" = none
    ∧ (edited_name "/m/Movie [2020].mkv").isSome = true := by
  refine ⟨c10_bracket_precondition.1 "Movie.mkv" (by decide),
    c10_bracket_precondition.2.1 "Movie [2020].mkv" (by decide),
    c10_bracket_precondition.2.2.2.1 "Movie.mkv" "eng" SubTag.forcedT (by decide),
    c10_bracket_precondition.2.2.2.2.1 "/m/Movie [2020].mkv" "eng" SubTag.forcedT
      (by decide),
    c10_bracket_precondition.2.2.2.2.2.1 "Movie.mkv" (by decide),
    c10_bracket_precondition.2.2.2.2.2.2 "/m/Movie [2020].mkv" (by decide)⟩
